import Mathlib

/-
Verification of the card-selection and spread-generation engine of the
tarot-reading application in src/app.py.

The Python source is shallowly embedded: each core function of the source
(is_court_of_rank, get_candidate_cards, choose_card, generate_spread,
render_layout_css, _normalize_item, load_tarot_cards, and the layout pick in
the submitted block of main) becomes a Lean definition.  Randomness from the
Python global random module is made explicit: random.choice receives a natural
number, random.sample a stream of naturals, orientation coins a stream of
booleans, and the layout coin a boolean.  The TF-IDF pipeline performed by
sklearn in choose_card is embedded over the reals, following the documented
default behaviour of TfidfVectorizer (lowercasing, word tokens of length at
least two, smoothed idf, l2 row normalisation) and the dot-product scoring
of the source.
-/

namespace PktGai

/-- A card record, following the Card TypedDict declared in the source
(index, img_id, japanese_name, name, looking, symbol, upright, reversed). -/
structure Card where
  index : Int
  img_id : String
  japanese_name : String
  name : String
  looking : String
  symbol : String
  upright : String
  reversed : String
deriving DecidableEq, Repr

/-- The defaults used by the submitted block when reading fields from the
dict returned by choose_card: sig_card.get("img_id", "00"),
sig_card.get("looking", "unclear"), and the empty string for text fields. -/
def defaultCard : Card :=
  { index := 0, img_id := "00", japanese_name := "", name := "",
    looking := "unclear", symbol := "", upright := "", reversed := "" }

/-- Python str.startswith over the underlying character lists. -/
def strStarts : List Char → List Char → Bool
  | [], _ => true
  | _ :: _, [] => false
  | p :: ps, c :: cs => p == c && strStarts ps cs

/-- Source is_court_of_rank: card_name.startswith(f"{rank} of "). -/
def is_court_of_rank (card_name : String) (rank : String) : Bool :=
  strStarts (rank ++ " of ").data card_name.data

/-- The target rank list computed inside get_candidate_cards from the
sex string and the over-40 flag (source compares sex to the Japanese labels
of the form, and otherwise takes the third branch). -/
def targetRanks (sex : String) (over_40 : Bool) : List String :=
  if sex = "男" then (if over_40 then ["Knight"] else ["King"])
  else if sex = "女" then (if over_40 then ["Queen"] else ["Page"])
  else (if over_40 then ["Knight", "Queen"] else ["King", "Page"])

/-- The list comprehension filtering cards_db by any target rank:
[c for c in cards_db if any(is_court_of_rank(c.get("name",""), r) for r in targets)]. -/
def rankFiltered (cards_db : List Card) (ranks : List String) : List Card :=
  cards_db.filter (fun c => ranks.any (fun r => is_court_of_rank c.name r))

/-- Source get_candidate_cards: the full catalog when self_flag is false,
otherwise the demographic rank filter, falling back to the filter over all
four court ranks, and finally (via the Python `courts or cards_db`) to the
whole catalog. -/
def get_candidate_cards (cards_db : List Card) (self_flag : Bool)
    (sex : String) (over_40 : Bool) : List Card :=
  if self_flag = false then cards_db
  else if (rankFiltered cards_db (targetRanks sex over_40)).isEmpty then
    (if (rankFiltered cards_db ["King", "Queen", "Knight", "Page"]).isEmpty
      then cards_db
      else rankFiltered cards_db ["King", "Queen", "Knight", "Page"])
  else rankFiltered cards_db (targetRanks sex over_40)

/-- The layout string computed in the submitted block of main:
layout if layout in ["right", "left"] else random.choice(["right", "left"]).
The coin models random.choice on the two-element list. -/
def pick_layout (looking : String) (coin : Bool) : String :=
  if looking = "right" ∨ looking = "left" then looking
  else if coin then "right" else "left"

/-- The (top, left) percentages of each slot of the Celtic-cross CSS emitted
by render_layout_css.  Slots 0-4 and 7-10 come from the base CSS; slots 5 and
6 come from the css_right block when the layout string equals "right" and
from the css_left block otherwise, exactly as in the source. -/
def render_layout_css (layout : String) : ℕ → Option (ℚ × ℚ)
  | 0 => some (41, 33)
  | 1 => some (40, 34)
  | 2 => some (41, 67 / 2)
  | 3 => some (4, 33)
  | 4 => some (76, 33)
  | 5 => some (if layout = "right" then (41, 4) else (41, 61))
  | 6 => some (if layout = "right" then (41, 61) else (41, 4))
  | 7 => some (76, 86)
  | 8 => some (52, 86)
  | 9 => some (28, 86)
  | 10 => some (4, 86)
  | _ => none

/-! ### The TF-IDF similarity selector (source choose_card)

The sklearn TfidfVectorizer used by the source is embedded over the reals
following its documented defaults: lowercasing, word tokens of length at
least two, raw term counts, smoothed idf ln((1 + n) / (1 + df)) + 1, and
l2 normalisation of each row.  The vocabulary order does not affect any
dot product, so the embedding keeps first-occurrence order of tokens. -/

/-- Python str.strip(): drop leading and trailing whitespace. -/
def pyStrip (s : String) : String :=
  String.mk
    (((s.data.dropWhile Char.isWhitespace).reverse.dropWhile
      Char.isWhitespace).reverse)

/-- A word character of the default token pattern of the vectorizer. -/
def wordChar (c : Char) : Bool := c.isAlphanum || c = '_'

/-- Split a character list into maximal runs of word characters. -/
def tokenRuns : List Char → List Char → List (List Char)
  | acc, [] => if acc.isEmpty then [] else [acc.reverse]
  | acc, c :: cs =>
    if wordChar c then tokenRuns (c :: acc) cs
    else if acc.isEmpty then tokenRuns [] cs
    else acc.reverse :: tokenRuns [] cs

/-- Tokenizer of the vectorizer: lowercase, then keep maximal word-character
runs of length at least two. -/
def tokenize (s : String) : List String :=
  ((tokenRuns [] (s.data.map Char.toLower)).filter
    (fun t => 2 ≤ t.length)).map (fun t => String.mk t)

/-- Vocabulary of the fitted corpus (deduplicated tokens of all documents). -/
def vocabOf (corpusToks : List (List String)) : List String :=
  corpusToks.flatten.dedup

/-- Document frequency of a token over the fitted corpus. -/
def dfCount (corpusToks : List (List String)) (t : String) : ℕ :=
  corpusToks.countP (fun d => d.contains t)

/-- Smoothed inverse document frequency of the vectorizer. -/
noncomputable def idf (n df : ℕ) : ℝ :=
  Real.log ((1 + (n : ℝ)) / (1 + (df : ℝ))) + 1

/-- Unnormalised tf-idf row of one document under the fitted vocabulary. -/
noncomputable def tfidfVec (corpusToks : List (List String))
    (vocab : List String) (docToks : List String) : List ℝ :=
  vocab.map (fun t =>
    ((docToks.count t : ℕ) : ℝ) * idf corpusToks.length (dfCount corpusToks t))

/-- Euclidean norm of a row. -/
noncomputable def l2norm (v : List ℝ) : ℝ :=
  Real.sqrt ((v.map (fun x => x * x)).sum)

/-- l2 row normalisation of the vectorizer (zero rows stay zero). -/
noncomputable def l2normalize (v : List ℝ) : List ℝ :=
  if l2norm v = 0 then v else v.map (fun x => x / l2norm v)

/-- Dot product of two rows, the source M @ q.T entry per candidate. -/
noncomputable def dotProd (a b : List ℝ) : ℝ :=
  (List.zipWith (fun x y => x * y) a b).sum

/-- The similarity vector of choose_card: fit on the corpus of all candidate
symbol texts plus the query, transform the candidate symbols and the query,
and take the dot product of each candidate row with the query row. -/
noncomputable def simsOf (candidates : List Card) (query_en : String) : List ℝ :=
  let corpusToks := (candidates.map (fun c => c.symbol) ++ [query_en]).map tokenize
  let vocab := vocabOf corpusToks
  let qv := l2normalize (tfidfVec corpusToks vocab (tokenize query_en))
  candidates.map (fun c =>
    dotProd (l2normalize (tfidfVec corpusToks vocab (tokenize c.symbol))) qv)

/-- numpy argmax: the index of the first occurrence of the maximum. -/
def argmaxFirst {α : Type} [LinearOrder α] (l : List α) : ℕ :=
  l.findIdx (fun a : α => decide (l.maximum = (a : WithBot α)))

/-- Source choose_card.  An empty candidate list yields the empty dict,
modelled as none; a blank (stripped-empty) query takes the random.choice
branch, modelled by the index r modulo the length; otherwise the candidate
at the first argmax of the TF-IDF similarity vector is returned.  The
index is always in range (proved below), so the getD default is never
used. -/
noncomputable def choose_card (r : ℕ) (candidates : List Card)
    (query_en : String) : Option Card :=
  if candidates.isEmpty then none
  else if pyStrip query_en = "" then
    some (candidates.getD (r % candidates.length) defaultCard)
  else
    some (candidates.getD (argmaxFirst (simsOf candidates query_en)) defaultCard)

/-! ### Properties of the first-occurrence argmax -/

theorem argmaxFirst_lt_length {α : Type} [LinearOrder α] (l : List α)
    (h : l ≠ []) : argmaxFirst l < l.length := by
  have hb := List.maximum_ne_bot_of_ne_nil h
  cases hm : l.maximum with
  | bot => exact absurd hm hb
  | coe m =>
    have hmem : m ∈ l := List.maximum_mem hm
    unfold argmaxFirst
    exact List.findIdx_lt_length_of_exists ⟨m, hmem, by simp [hm]⟩

theorem maximum_argmaxFirst {α : Type} [LinearOrder α] (l : List α)
    (h : l ≠ []) {x : α} :
    l.maximum = ((l.getD (argmaxFirst l) x) : WithBot α) := by
  have hlt := argmaxFirst_lt_length l h
  rw [List.getD_eq_getElem l x hlt]
  unfold argmaxFirst at hlt ⊢
  exact of_decide_eq_true (List.findIdx_getElem (w := hlt))

theorem le_getD_argmaxFirst {α : Type} [LinearOrder α] (l : List α)
    (h : l ≠ []) (x : α) : ∀ a ∈ l, a ≤ l.getD (argmaxFirst l) x := by
  intro a ha
  exact List.le_maximum_of_mem ha (maximum_argmaxFirst l h)

theorem lt_of_lt_argmaxFirst {α : Type} [LinearOrder α] (l : List α)
    (h : l ≠ []) (x : α) :
    ∀ j, j < argmaxFirst l → l.getD j x < l.getD (argmaxFirst l) x := by
  intro j hj
  have hlt := argmaxFirst_lt_length l h
  have hjl : j < l.length := hj.trans hlt
  rw [List.getD_eq_getElem l x hjl]
  refine lt_of_le_of_ne
    (le_getD_argmaxFirst l h x _ (List.getElem_mem hjl)) ?_
  intro heq
  have hmax := maximum_argmaxFirst l h (x := x)
  rw [← heq] at hmax
  unfold argmaxFirst at hj
  have hne := List.not_of_lt_findIdx hj
  simp [hmax] at hne

/-- Concrete candidate used by witnesses below. -/
def loveCard : Card :=
  { index := 48, img_id := "48", japanese_name := "", name := "Queen of Cups",
    looking := "right", symbol := "love warm feelings and a kind heart",
    upright := "", reversed := "" }

/-- Concrete candidate used by witnesses below. -/
def swordCard : Card :=
  { index := 61, img_id := "61", japanese_name := "", name := "King of Swords",
    looking := "left", symbol := "conflict judgement and cold logic",
    upright := "", reversed := "" }

/-- C1: for every non-empty candidate list and every non-blank query, the
selector scores each candidate by the dot product of its TF-IDF vector
(built over the corpus of all candidate symbol texts plus the query) with
the query vector and returns the candidate at the first index attaining the
maximum score: the chosen score is maximal, every index before the chosen
one scores strictly less (so ties go to the first candidate in catalog
order), and the result does not depend on the random source. -/
theorem choose_card_tfidf_argmax (r r' : ℕ) (cands : List Card) (q : String)
    (hne : cands ≠ []) (hq : pyStrip q ≠ "") :
    choose_card r cands q
      = some (cands.getD (argmaxFirst (simsOf cands q)) defaultCard)
    ∧ argmaxFirst (simsOf cands q) < cands.length
    ∧ choose_card r cands q = choose_card r' cands q
    ∧ (∀ j, j < cands.length →
        (simsOf cands q).getD j 0
          ≤ (simsOf cands q).getD (argmaxFirst (simsOf cands q)) 0)
    ∧ (∀ j, j < argmaxFirst (simsOf cands q) →
        (simsOf cands q).getD j 0
          < (simsOf cands q).getD (argmaxFirst (simsOf cands q)) 0) := by
  have hsl : (simsOf cands q).length = cands.length := by
    simp [simsOf]
  have hsne : simsOf cands q ≠ [] := by
    intro h0
    have hc0 : cands.length = 0 := by rw [← hsl, h0]; rfl
    exact hne (List.length_eq_zero.mp hc0)
  have ham := argmaxFirst_lt_length _ hsne
  have hamc : argmaxFirst (simsOf cands q) < cands.length := by
    rw [← hsl]; exact ham
  have hemp : ¬ (cands.isEmpty = true) := by
    simp [List.isEmpty_iff, hne]
  have hcc : choose_card r cands q
      = some (cands.getD (argmaxFirst (simsOf cands q)) defaultCard) := by
    unfold choose_card
    rw [if_neg hemp, if_neg hq]
  have hcc' : choose_card r' cands q
      = some (cands.getD (argmaxFirst (simsOf cands q)) defaultCard) := by
    unfold choose_card
    rw [if_neg hemp, if_neg hq]
  refine ⟨hcc, hamc, by rw [hcc, hcc'], ?_, ?_⟩
  · intro j hj
    have hjs : j < (simsOf cands q).length := by rw [hsl]; exact hj
    have hle := le_getD_argmaxFirst (simsOf cands q) hsne 0 _
      (List.getElem_mem hjs)
    rw [List.getD_eq_getElem _ 0 hjs]
    exact hle
  · intro j hj
    exact lt_of_lt_argmaxFirst _ hsne 0 j hj

/-- Witness for C1 at a concrete two-candidate list and query "love". -/
theorem choose_card_tfidf_argmax_witness :
    argmaxFirst (simsOf [swordCard, loveCard] "love") < 2 :=
  (choose_card_tfidf_argmax 0 1 [swordCard, loveCard] "love"
    (by decide) (by decide)).2.1

/-! ### The spread dealer (source generate_spread) -/

/-- One entry of the list returned by generate_spread, the dict
with keys "index", "card" and "orientation". -/
structure SpreadEntry where
  index : ℕ
  card : Card
  orientation : String
deriving DecidableEq, Repr

/-- Draw elements without replacement: each step picks the position given by
the random stream modulo the remaining pool size and removes it.  This is
the standard explicit-randomness model of random.sample. -/
def sampleAux (picks : ℕ → ℕ) : ℕ → List Card → ℕ → List Card
  | _, _, 0 => []
  | step, pool, Nat.succ k =>
    if pool.length = 0 then []
    else
      pool.getD (picks step % pool.length) defaultCard ::
        sampleAux picks (step + 1)
          (pool.eraseIdx (picks step % pool.length)) k

/-- random.sample(pool, k): a ValueError (modelled none) when the pool has
fewer than k elements, otherwise k draws without replacement. -/
def sample (picks : ℕ → ℕ) (pool : List Card) (k : ℕ) : Option (List Card) :=
  if pool.length < k then none else some (sampleAux picks 0 pool k)

/-- The comprehension over enumerate(chosen, start=1), with the
random.choice(["upright", "reversed"]) coin made explicit per position. -/
def attachIdx (orient : ℕ → Bool) : ℕ → List Card → List SpreadEntry
  | _, [] => []
  | i, c :: cs =>
    { index := i, card := c,
      orientation := if orient i then "upright" else "reversed" } ::
      attachIdx orient (i + 1) cs

/-- Source generate_spread: remove every card whose img_id equals the
significator key, sample 10 cards without replacement, and enumerate them
from 1 with random orientations. -/
def generate_spread (picks : ℕ → ℕ) (orient : ℕ → Bool)
    (cards_db : List Card) (sig_img_id : String) :
    Option (List SpreadEntry) :=
  match sample picks (cards_db.filter (fun c => c.img_id != sig_img_id)) 10 with
  | none => none
  | some chosen => some (attachIdx orient 1 chosen)

/-! ### The submitted block of main, as one reading flow -/

/-- The data assembled for one reading. -/
structure ReadingResult where
  sig : Card
  spread : List SpreadEntry
  layout : String
deriving Repr

/-- The submitted block of main, from candidate filtering to the layout
pick: stop with an error when the candidate list is empty, otherwise choose
the significator, deal the spread (a ValueError from random.sample aborts
the run), and resolve the layout from the significator facing direction. -/
noncomputable def run_reading (r : ℕ) (picks : ℕ → ℕ) (orient : ℕ → Bool)
    (coin : Bool) (cards_db : List Card) (is_self : Bool) (sex : String)
    (over_40 : Bool) (translated_query : String) :
    Except String ReadingResult :=
  let candidates := get_candidate_cards cards_db is_self sex over_40
  if candidates.isEmpty then Except.error "DataUnavailable"
  else
    let sig_card := (choose_card r candidates translated_query).getD defaultCard
    match generate_spread picks orient cards_db sig_card.img_id with
    | none => Except.error "InsufficientPool"
    | some spread =>
        Except.ok { sig := sig_card, spread := spread,
                    layout := pick_layout sig_card.looking coin }

/-! ### Lemmas about sampling and enumeration -/

theorem sampleAux_length (picks : ℕ → ℕ) :
    ∀ (k step : ℕ) (pool : List Card), k ≤ pool.length →
      (sampleAux picks step pool k).length = k := by
  intro k
  induction k with
  | zero => intro step pool _; rfl
  | succ k ih =>
    intro step pool hk
    have hp : ¬ (pool.length = 0) := by omega
    have hi : picks step % pool.length < pool.length :=
      Nat.mod_lt _ (Nat.pos_of_ne_zero hp)
    have he : (pool.eraseIdx (picks step % pool.length)).length
        = pool.length - 1 := by
      rw [List.length_eraseIdx, if_pos hi]
    rw [sampleAux, if_neg hp]
    simp only [List.length_cons]
    rw [ih (step + 1) _ (by omega)]

theorem sampleAux_subperm (picks : ℕ → ℕ) :
    ∀ (k step : ℕ) (pool : List Card),
      (sampleAux picks step pool k).Subperm pool := by
  intro k
  induction k with
  | zero => intro step pool; exact List.nil_subperm
  | succ k ih =>
    intro step pool
    by_cases hp : pool.length = 0
    · rw [sampleAux, if_pos hp]; exact List.nil_subperm
    · have hi : picks step % pool.length < pool.length :=
        Nat.mod_lt _ (Nat.pos_of_ne_zero hp)
      rw [sampleAux, if_neg hp]
      have hperm : (pool.getD (picks step % pool.length) defaultCard ::
          pool.eraseIdx (picks step % pool.length)).Perm pool := by
        rw [List.getD_eq_getElem _ _ hi, List.eraseIdx_eq_take_drop_succ]
        refine List.Perm.trans List.perm_middle.symm ?_
        rw [List.getElem_cons_drop, List.take_append_drop]
      exact ((List.subperm_cons _).mpr (ih (step + 1) _)).trans hperm.subperm

theorem subperm_nodup {l₁ l₂ : List Card} (h : l₁.Subperm l₂)
    (hn : l₂.Nodup) : l₁.Nodup := by
  obtain ⟨l, hp, hs⟩ := h
  exact hp.nodup_iff.mp (hs.nodup hn)

theorem attachIdx_map_card (orient : ℕ → Bool) :
    ∀ (i : ℕ) (l : List Card),
      (attachIdx orient i l).map (fun e => e.card) = l := by
  intro i l
  induction l generalizing i with
  | nil => rfl
  | cons c cs ih => rw [attachIdx]; simp [ih]

theorem attachIdx_map_index (orient : ℕ → Bool) :
    ∀ (i : ℕ) (l : List Card),
      (attachIdx orient i l).map (fun e => e.index)
        = List.range' i l.length := by
  intro i l
  induction l generalizing i with
  | nil => rfl
  | cons c cs ih => rw [attachIdx]; simp [ih, List.range']

theorem attachIdx_orientation (orient : ℕ → Bool) :
    ∀ (i : ℕ) (l : List Card) (e : SpreadEntry), e ∈ attachIdx orient i l →
      e.orientation = "upright" ∨ e.orientation = "reversed" := by
  intro i l
  induction l generalizing i with
  | nil => intro e he; cases he
  | cons c cs ih =>
    intro e he
    rw [attachIdx] at he
    rcases List.mem_cons.mp he with h | h
    · subst h
      by_cases hc : orient i = true
      · left; simp [hc]
      · right; simp [hc]
    · exact ih (i + 1) e h

theorem generate_spread_sound (picks : ℕ → ℕ) (orient : ℕ → Bool)
    (cards_db : List Card) (sig : String) (s : List SpreadEntry)
    (h : generate_spread picks orient cards_db sig = some s) :
    (∀ e ∈ s, e.card.img_id ≠ sig)
    ∧ (cards_db.Nodup → (s.map (fun e => e.card)).Nodup) := by
  unfold generate_spread sample at h
  set pool := cards_db.filter (fun c => c.img_id != sig) with hpool
  by_cases hlt : pool.length < 10
  · rw [if_pos hlt] at h; simp at h
  · rw [if_neg hlt] at h
    simp only [Option.some.injEq] at h
    subst h
    have hsub := sampleAux_subperm picks 10 0 pool
    constructor
    · intro e he
      have hcard : e.card ∈ sampleAux picks 0 pool 10 := by
        rw [← attachIdx_map_card orient 1 (sampleAux picks 0 pool 10)]
        exact List.mem_map_of_mem _ he
      have hmem : e.card ∈ pool := hsub.subset hcard
      have := List.of_mem_filter hmem
      simpa using this
    · intro hn
      rw [attachIdx_map_card]
      exact subperm_nodup hsub (hn.filter _)

/-! ### Concrete catalogs for witnesses -/

/-- A concrete catalog card with a distinct img_id per index. -/
def mkCard (n : ℕ) : Card :=
  { index := (n : Int), img_id := toString n, japanese_name := "",
    name := "Card " ++ toString n, looking := "unclear", symbol := "",
    upright := "", reversed := "" }

/-- A twelve-card demo catalog. -/
def demoDb : List Card := (List.range 12).map mkCard

/-- C3: the spread dealer returns exactly 10 dealt cards with position
indices 1..10 assigned in the order sampled whenever the pool (catalog minus
significator) has at least 10 cards, and fails with the insufficient-pool
error (never a shorter list) whenever the pool has fewer than 10 cards. -/
theorem generate_spread_ten_or_insufficient (picks : ℕ → ℕ)
    (orient : ℕ → Bool) (cards_db : List Card) (sig : String) :
    (10 ≤ (cards_db.filter (fun c => c.img_id != sig)).length →
      ∃ s, generate_spread picks orient cards_db sig = some s
        ∧ s.length = 10
        ∧ s.map (fun e => e.index) = [1, 2, 3, 4, 5, 6, 7, 8, 9, 10]
        ∧ s.map (fun e => e.card)
            = sampleAux picks 0 (cards_db.filter (fun c => c.img_id != sig)) 10
        ∧ (∀ e ∈ s, e.orientation = "upright" ∨ e.orientation = "reversed"))
    ∧ ((cards_db.filter (fun c => c.img_id != sig)).length < 10 →
      generate_spread picks orient cards_db sig = none) := by
  constructor
  · intro h10
    have hnl : ¬ ((cards_db.filter (fun c => c.img_id != sig)).length < 10) := by
      omega
    have hlen := sampleAux_length picks 10 0
      (cards_db.filter (fun c => c.img_id != sig)) h10
    refine ⟨attachIdx orient 1
      (sampleAux picks 0 (cards_db.filter (fun c => c.img_id != sig)) 10),
      ?_, ?_, ?_, ?_, ?_⟩
    · unfold generate_spread sample
      rw [if_neg hnl]
    · have hmc := attachIdx_map_card orient 1
        (sampleAux picks 0 (cards_db.filter (fun c => c.img_id != sig)) 10)
      calc (attachIdx orient 1
            (sampleAux picks 0 (cards_db.filter (fun c => c.img_id != sig)) 10)).length
          = ((attachIdx orient 1
            (sampleAux picks 0 (cards_db.filter (fun c => c.img_id != sig)) 10)).map
              (fun e => e.card)).length := (List.length_map _ _).symm
        _ = 10 := by rw [hmc, hlen]
    · rw [attachIdx_map_index, hlen]
      rfl
    · exact attachIdx_map_card orient 1 _
    · exact attachIdx_orientation orient 1 _
  · intro hlt
    unfold generate_spread sample
    rw [if_pos hlt]

/-- Witness for C3 on the demo catalog: the pool has 11 cards, so dealing
succeeds with exactly 10 entries. -/
theorem generate_spread_ten_or_insufficient_witness :
    ∃ s, generate_spread (fun _ => 0) (fun _ => true) demoDb "0" = some s
      ∧ s.length = 10 := by
  obtain ⟨s, h1, h2, _⟩ :=
    (generate_spread_ten_or_insufficient (fun _ => 0) (fun _ => true)
      demoDb "0").1 (by decide)
  exact ⟨s, h1, h2⟩

/-- C2: for every reading that completes, no spread entry shares the
significator img_id, and (for a duplicate-free catalog, the invariant of
the loaded deck) the significator together with the 10 spread cards forms
a duplicate-free collection. -/
theorem reading_no_duplicate_cards (r : ℕ) (picks : ℕ → ℕ)
    (orient : ℕ → Bool) (coin : Bool) (db : List Card) (self : Bool)
    (sex : String) (o40 : Bool) (q : String) (res : ReadingResult)
    (hok : run_reading r picks orient coin db self sex o40 q
      = Except.ok res) :
    (∀ e ∈ res.spread, e.card.img_id ≠ res.sig.img_id)
    ∧ (db.Nodup → (res.sig :: res.spread.map (fun e => e.card)).Nodup) := by
  simp only [run_reading] at hok
  by_cases hemp : (get_candidate_cards db self sex o40).isEmpty = true
  · rw [if_pos hemp] at hok
    simp at hok
  · rw [if_neg hemp] at hok
    rcases hg : generate_spread picks orient db
        (((choose_card r (get_candidate_cards db self sex o40) q).getD
          defaultCard).img_id) with _ | spread
    · rw [hg] at hok
      simp at hok
    · rw [hg] at hok
      cases hok
      obtain ⟨h1, h2⟩ := generate_spread_sound picks orient db _ spread hg
      refine ⟨fun e he => h1 e he, fun hn => ?_⟩
      refine List.nodup_cons.mpr ⟨?_, h2 hn⟩
      intro hmem
      obtain ⟨e, he, hce⟩ := List.mem_map.mp hmem
      exact (h1 e he) (by rw [hce])

/-- The reading produced on the demo catalog with a blank query and fixed
random streams, used by the C2 witness. -/
noncomputable def demoRes : ReadingResult :=
  match run_reading 0 (fun _ => 0) (fun _ => true) true demoDb false
      "男" true "" with
  | Except.ok v => v
  | Except.error _ => { sig := defaultCard, spread := [], layout := "left" }

/-- Witness for C2 on the demo catalog. -/
theorem reading_no_duplicate_cards_witness :
    (∀ e ∈ demoRes.spread, e.card.img_id ≠ demoRes.sig.img_id)
    ∧ (demoRes.sig :: demoRes.spread.map (fun e => e.card)).Nodup := by
  have h := reading_no_duplicate_cards 0 (fun _ => 0) (fun _ => true) true
    demoDb false "男" true "" demoRes (by rfl)
  exact ⟨h.1, h.2 (by decide)⟩

/-- C7: when the candidate set for the significator selector is empty, the
reading flow stops with the data-unavailable error; no reading and no
substitute significator is produced. -/
theorem empty_candidates_stop (r : ℕ) (picks : ℕ → ℕ) (orient : ℕ → Bool)
    (coin : Bool) (db : List Card) (self : Bool) (sex : String) (o40 : Bool)
    (q : String)
    (hemp : get_candidate_cards db self sex o40 = []) :
    run_reading r picks orient coin db self sex o40 q
      = Except.error "DataUnavailable" := by
  simp only [run_reading]
  rw [if_pos (by simp [hemp])]

/-- Witness for C7: the empty catalog yields an empty candidate set and the
flow stops with the data-unavailable error. -/
theorem empty_candidates_stop_witness :
    run_reading 0 (fun _ => 0) (fun _ => true) true [] true "男" true ""
      = Except.error "DataUnavailable" :=
  empty_candidates_stop 0 (fun _ => 0) (fun _ => true) true [] true "男"
    true "" (by rfl)

/-! ### Candidate filter properties -/

/-- A non-court concrete card. -/
def foolCard : Card :=
  { index := 0, img_id := "00", japanese_name := "愚者", name := "The Fool",
    looking := "unclear", symbol := "folly mania extravagance",
    upright := "", reversed := "" }

/-- A court concrete card. -/
def knightCard : Card :=
  { index := 34, img_id := "34", japanese_name := "",
    name := "Knight of Wands", looking := "left",
    symbol := "departure journey", upright := "", reversed := "" }

/-- C4: for every non-empty catalog the candidate filter returns a
non-empty list; when the demographic rank filter is empty it returns the
four-court-rank filter when that is non-empty, and the whole catalog when
that too is empty. -/
theorem get_candidate_cards_nonempty (db : List Card) (self : Bool)
    (sex : String) (o40 : Bool) (hdb : db ≠ []) :
    get_candidate_cards db self sex o40 ≠ []
    ∧ (self = true → rankFiltered db (targetRanks sex o40) = [] →
        rankFiltered db ["King", "Queen", "Knight", "Page"] = [] →
        get_candidate_cards db self sex o40 = db)
    ∧ (self = true → rankFiltered db (targetRanks sex o40) = [] →
        rankFiltered db ["King", "Queen", "Knight", "Page"] ≠ [] →
        get_candidate_cards db self sex o40
          = rankFiltered db ["King", "Queen", "Knight", "Page"]) := by
  cases self with
  | false =>
    refine ⟨by simpa [get_candidate_cards] using hdb, ?_, ?_⟩
    · intro h; exact absurd h (by simp)
    · intro h; exact absurd h (by simp)
  | true =>
    by_cases h1 : rankFiltered db (targetRanks sex o40) = []
    · by_cases h4 : rankFiltered db ["King", "Queen", "Knight", "Page"] = []
      · have hv : get_candidate_cards db true sex o40 = db := by
          unfold get_candidate_cards
          rw [if_neg (by simp : ¬(true = false)),
            if_pos (List.isEmpty_iff.mpr h1), if_pos (List.isEmpty_iff.mpr h4)]
        exact ⟨by rw [hv]; exact hdb, fun _ _ _ => hv,
          fun _ _ h4c => absurd h4 h4c⟩
      · have hv : get_candidate_cards db true sex o40
            = rankFiltered db ["King", "Queen", "Knight", "Page"] := by
          unfold get_candidate_cards
          rw [if_neg (by simp : ¬(true = false)),
            if_pos (List.isEmpty_iff.mpr h1),
            if_neg (fun hc => h4 (List.isEmpty_iff.mp hc))]
        exact ⟨by rw [hv]; exact h4, fun _ _ h4c => absurd h4c h4,
          fun _ _ _ => hv⟩
    · have hv : get_candidate_cards db true sex o40
          = rankFiltered db (targetRanks sex o40) := by
        unfold get_candidate_cards
        rw [if_neg (by simp : ¬(true = false)),
          if_neg (fun hc => h1 (List.isEmpty_iff.mp hc))]
      exact ⟨by rw [hv]; exact h1, fun _ h1c => absurd h1c h1,
        fun _ h1c => absurd h1c h1⟩

/-- Witness for C4 on a one-card catalog with no court cards. -/
theorem get_candidate_cards_nonempty_witness :
    get_candidate_cards [foolCard] true "男" true ≠ [] :=
  (get_candidate_cards_nonempty [foolCard] true "男" true (by decide)).1

/-- Counterexample to C5 as stated: on a self-directed query over a catalog
with no court card, the result is not the set of rank-matching cards (which
is empty) but the fallback, so the filter does not keep exactly the cards
whose name begins with a target rank. -/
theorem get_candidate_cards_not_exact_filter :
    get_candidate_cards [foolCard] true "男" true
      ≠ rankFiltered [foolCard] (targetRanks "男" true) := by
  decide

/-- C5 amended: with the self flag false the filter returns the catalog
unchanged; with it true and at least one card matching the demographic
target rank set, the result is exactly the cards whose English name begins
"<Rank> of " for a rank in the target set; the target sets are
male+over Knight, male+under King, female+over Queen, female+under Page,
other+over Knight and Queen, other+under King and Page.  (When no card
matches, the fallback chain of C4 applies instead.) -/
theorem get_candidate_cards_exact_when_matched (db : List Card)
    (sex : String) (o40 : Bool) :
    (get_candidate_cards db false sex o40 = db)
    ∧ (rankFiltered db (targetRanks sex o40) ≠ [] →
        get_candidate_cards db true sex o40
          = db.filter (fun c =>
              (targetRanks sex o40).any (fun rk => is_court_of_rank c.name rk)))
    ∧ targetRanks "男" true = ["Knight"]
    ∧ targetRanks "男" false = ["King"]
    ∧ targetRanks "女" true = ["Queen"]
    ∧ targetRanks "女" false = ["Page"]
    ∧ (∀ s, s ≠ "男" → s ≠ "女" →
        targetRanks s true = ["Knight", "Queen"]
        ∧ targetRanks s false = ["King", "Page"]) := by
  refine ⟨by simp [get_candidate_cards], ?_, rfl, rfl, rfl, rfl, ?_⟩
  · intro h1
    unfold get_candidate_cards
    rw [if_neg (by simp : ¬(true = false)),
      if_neg (fun hc => h1 (List.isEmpty_iff.mp hc))]
    rfl
  · intro s hs1 hs2
    constructor <;> simp [targetRanks, hs1, hs2]

/-- Witness for C5 (amended) on a two-card catalog with one matching
Knight. -/
theorem get_candidate_cards_exact_when_matched_witness :
    get_candidate_cards [knightCard, foolCard] true "男" true
      = [knightCard, foolCard].filter (fun c =>
          (targetRanks "男" true).any (fun rk => is_court_of_rank c.name rk)) :=
  (get_candidate_cards_exact_when_matched [knightCard, foolCard]
    "男" true).2.1 (by decide)

/-! ### Blank-query uniform choice -/

theorem card_range_mod (K m i : ℕ) (hK : 0 < K) (hi : i < K) :
    ((Finset.range (m * K)).filter (fun r => r % K = i)).card = m := by
  have hinj : Function.Injective (fun t : ℕ => t * K + i) := by
    intro a b hab
    simp only [] at hab
    have hmul : a * K = b * K := by omega
    exact Nat.eq_of_mul_eq_mul_right hK hmul
  have himg : (Finset.range (m * K)).filter (fun r => r % K = i)
      = (Finset.range m).image (fun t => t * K + i) := by
    ext x
    simp only [Finset.mem_filter, Finset.mem_range, Finset.mem_image]
    constructor
    · rintro ⟨hx, hmod⟩
      refine ⟨x / K, (Nat.div_lt_iff_lt_mul hK).mpr hx, ?_⟩
      rw [← hmod, Nat.mul_comm]
      exact Nat.div_add_mod x K
    · rintro ⟨t, ht, rfl⟩
      constructor
      · calc t * K + i < t * K + K := by omega
          _ = (t + 1) * K := by ring
          _ ≤ m * K := Nat.mul_le_mul_right _ (by omega)
      · rw [Nat.mul_comm t K, Nat.mul_add_mod]
        exact Nat.mod_eq_of_lt hi
  rw [himg, Finset.card_image_of_injective _ hinj, Finset.card_range]

/-- C6: with a blank (stripped-empty) query the selector takes the
random.choice branch: the result is candidates[r mod K] with no similarity
computation, every candidate is reachable by some draw (no candidate has
zero probability), and among any m*K consecutive draws each index is hit
exactly m times (uniformity of the index distribution). -/
theorem choose_card_blank_uniform (cands : List Card) (q : String)
    (hne : cands ≠ []) (hq : pyStrip q = "") :
    (∀ r : ℕ, choose_card r cands q
        = some (cands.getD (r % cands.length) defaultCard))
    ∧ (∀ i, i < cands.length → ∃ r, r < cands.length ∧
        choose_card r cands q = some (cands.getD i defaultCard))
    ∧ (∀ m i, i < cands.length →
        ((Finset.range (m * cands.length)).filter
          (fun r => r % cands.length = i)).card = m) := by
  have hemp : ¬ (cands.isEmpty = true) := by
    simp [List.isEmpty_iff, hne]
  have hchoice : ∀ r : ℕ, choose_card r cands q
      = some (cands.getD (r % cands.length) defaultCard) := by
    intro r
    unfold choose_card
    rw [if_neg hemp, if_pos hq]
  refine ⟨hchoice, ?_, ?_⟩
  · intro i hi
    refine ⟨i, hi, ?_⟩
    rw [hchoice i, Nat.mod_eq_of_lt hi]
  · intro m i hi
    exact card_range_mod cands.length m i (List.length_pos.mpr hne) hi

/-- Witness for C6 at a whitespace-only query. -/
theorem choose_card_blank_uniform_witness :
    choose_card 3 [swordCard, loveCard] " "
      = some ([swordCard, loveCard].getD (3 % 2) defaultCard) :=
  (choose_card_blank_uniform [swordCard, loveCard] " "
    (by decide) (by decide)).1 3

/-! ### Layout mapping -/

theorem pick_layout_mem (look : String) (coin : Bool) :
    pick_layout look coin = "right" ∨ pick_layout look coin = "left" := by
  unfold pick_layout
  by_cases h : look = "right" ∨ look = "left"
  · rw [if_pos h]
    exact h
  · rw [if_neg h]
    cases coin
    · right; rfl
    · left; rfl

/-- C8: the CSS swaps exactly slots 5 and 6 (behind and before) between the
two mirrored variants: every other slot is identical in both variants, the
two variants are genuine mirrors of each other on slots 5 and 6, the facing
direction right or left selects its variant, an unspecified direction is
resolved by a single coin flip, and the resulting layout always places both
swapped slots according to one shared variant (never mirrored
independently). -/
theorem layout_swaps_slots_five_six :
    (∀ i, i ≠ 5 → i ≠ 6 →
      render_layout_css "right" i = render_layout_css "left" i)
    ∧ render_layout_css "right" 5 = render_layout_css "left" 6
    ∧ render_layout_css "right" 6 = render_layout_css "left" 5
    ∧ render_layout_css "right" 5 ≠ render_layout_css "right" 6
    ∧ pick_layout "right" true = "right"
    ∧ pick_layout "right" false = "right"
    ∧ pick_layout "left" true = "left"
    ∧ pick_layout "left" false = "left"
    ∧ (∀ look coin, look ≠ "right" → look ≠ "left" →
        pick_layout look coin = if coin then "right" else "left")
    ∧ (∀ look coin,
        (render_layout_css (pick_layout look coin) 5
            = render_layout_css "right" 5
          ∧ render_layout_css (pick_layout look coin) 6
            = render_layout_css "right" 6)
        ∨ (render_layout_css (pick_layout look coin) 5
            = render_layout_css "left" 5
          ∧ render_layout_css (pick_layout look coin) 6
            = render_layout_css "left" 6)) := by
  refine ⟨?_, rfl, rfl, by decide, rfl, rfl, rfl, rfl, ?_, ?_⟩
  · intro i h5 h6
    rcases i with _|_|_|_|_|_|_|_|_|_|_|n
    · rfl
    · rfl
    · rfl
    · rfl
    · rfl
    · exact absurd rfl h5
    · exact absurd rfl h6
    · rfl
    · rfl
    · rfl
    · rfl
    · rfl
  · intro look coin h1 h2
    simp [pick_layout, h1, h2]
  · intro look coin
    rcases pick_layout_mem look coin with hp | hp
    · left; rw [hp]; exact ⟨rfl, rfl⟩
    · right; rw [hp]; exact ⟨rfl, rfl⟩

/-- Witness for C8: a non-swapped slot agrees between the variants, and an
unclear facing direction with a heads coin yields the right-facing
variant. -/
theorem layout_swaps_slots_five_six_witness :
    render_layout_css "right" 3 = render_layout_css "left" 3
    ∧ pick_layout "unclear" true = if true then "right" else "left" :=
  ⟨layout_swaps_slots_five_six.1 3 (by decide) (by decide),
   layout_swaps_slots_five_six.2.2.2.2.2.2.2.2.1 "unclear" true
     (by decide) (by decide)⟩

/-- C10: for every looking string other than exactly "right" or "left" —
including the empty string and arbitrary values — the layout is decided by
the coin flip, both mirrored variants are reachable, and the layout choice
is total: every looking string yields one of the two variants. -/
theorem pick_layout_total_random (look : String) (coin : Bool)
    (h1 : look ≠ "right") (h2 : look ≠ "left") :
    pick_layout look coin = (if coin then "right" else "left")
    ∧ pick_layout look true = "right"
    ∧ pick_layout look false = "left"
    ∧ (∀ lk c, pick_layout lk c = "right" ∨ pick_layout lk c = "left") := by
  refine ⟨by simp [pick_layout, h1, h2], by simp [pick_layout, h1, h2],
    by simp [pick_layout, h1, h2], fun lk c => pick_layout_mem lk c⟩

/-- Witness for C10 at the empty looking string. -/
theorem pick_layout_total_random_witness :
    pick_layout "" true = (if true then "right" else "left")
    ∧ pick_layout "" false = "left" := by
  have h := pick_layout_total_random "" true (by decide) (by decide)
  exact ⟨h.1, h.2.2.1⟩

/-! ### The catalog loader (source _normalize_item and load_tarot_cards)

The JSON input is modelled by an inductive value type; the json.loads used
for string elements is an external parser and is passed in as a function.
Python dicts become association lists with first-key lookup, in-place
assignment, and setdefault appending at the end.  list.sort(key=...) is a
stable comparison sort; it is modelled by insertion sort, which shares its
contract (a stable sort of the list by the key). -/

/-- A JSON value. -/
inductive Json where
  | null : Json
  | bool (b : Bool) : Json
  | num (n : Int) : Json
  | str (s : String) : Json
  | arr (elems : List Json) : Json
  | obj (kvs : List (String × Json)) : Json

/-- Python dict assignment d[k] = v: replace the first binding in place,
append when absent. -/
def dictSet (kvs : List (String × Json)) (k : String) (v : Json) :
    List (String × Json) :=
  match kvs with
  | [] => [(k, v)]
  | (k0, v0) :: rest =>
    if k0 = k then (k0, v) :: rest else (k0, v0) :: dictSet rest k v

/-- Python dict.setdefault(k, v): keep an existing binding, append (k, v)
at the end when absent. -/
def dictSetD (kvs : List (String × Json)) (k : String) (v : Json) :
    List (String × Json) :=
  if (List.lookup k kvs).isSome then kvs else kvs ++ [(k, v)]

/-- Python int(...) on a JSON value: ints pass through, booleans coerce to
0 or 1, numeric strings parse (with whitespace stripped), everything else
raises (modelled none).  Float truncation is outside this integer model. -/
def pyInt : Json → Option Int
  | Json.num n => some n
  | Json.bool b => some (if b then 1 else 0)
  | Json.str s => (pyStrip s).toInt?
  | _ => none

/-- Python f-string formatting f"{idx:02d}": minimum width two including
the sign, zero padded. -/
def fmt2 (n : Int) : String :=
  if 0 ≤ n then
    (if (Nat.repr n.toNat).length = 1 then "0" ++ Nat.repr n.toNat
     else Nat.repr n.toNat)
  else "-" ++ Nat.repr (-n).toNat

/-- The body of _normalize_item after the json.loads step: reject non-dict
values, coerce the "index" entry (default 0) to an integer (failure gives
None), then assign index and the derived img_id and set the six defaulted
text fields, in source order. -/
def normItemOf (item : Json) : Option (List (String × Json)) :=
  match item with
  | Json.obj kvs =>
    match pyInt ((List.lookup "index" kvs).getD (Json.num 0)) with
    | none => none
    | some idx =>
      some (dictSetD (dictSetD (dictSetD (dictSetD (dictSetD (dictSetD
        (dictSet (dictSet kvs "index" (Json.num idx))
          "img_id" (Json.str (fmt2 idx)))
        "japanese_name" (Json.str "")) "name" (Json.str ""))
        "looking" (Json.str "unclear")) "symbol" (Json.str ""))
        "upright" (Json.str "")) "reversed" (Json.str ""))
  | _ => none

/-- Source _normalize_item: string elements go through json.loads (an
external parser passed as loads; a parse failure, modelled none, makes the
element malformed), everything else is normalized directly. -/
def _normalize_item (loads : String → Option Json) (raw : Json) :
    Option (List (String × Json)) :=
  match raw with
  | Json.str s => (loads s).bind normItemOf
  | j => normItemOf j

/-- The sort key x.get("index", 0) of load_tarot_cards (always an integer
on normalized items). -/
def sortKey (kvs : List (String × Json)) : Int :=
  match List.lookup "index" kvs with
  | some (Json.num n) => n
  | _ => 0

/-- Source load_tarot_cards on parsed data: a non-array root yields the
empty catalog (with an error display); otherwise normalize every element,
count the elements that fail to normalize (the count shown by the warning),
and sort the survivors ascending by index.  The pair is (catalog, dropped
count). -/
def load_tarot_cards (loads : String → Option Json) (data : Json) :
    List (List (String × Json)) × ℕ :=
  match data with
  | Json.arr els =>
    (List.insertionSort (fun a b => sortKey a ≤ sortKey b)
        (els.filterMap (_normalize_item loads)),
      els.countP (fun e => (_normalize_item loads e).isNone))
  | _ => ([], 0)

/-! ### Loader lemmas -/

theorem beq_false_of_ne {a b : String} (h : ¬ a = b) : (a == b) = false := by
  simpa [beq_iff_eq] using h

theorem lookup_dictSet_self (kvs : List (String × Json)) (k : String)
    (v : Json) : List.lookup k (dictSet kvs k v) = some v := by
  induction kvs with
  | nil => simp [dictSet, List.lookup]
  | cons kv rest ih =>
    obtain ⟨k0, v0⟩ := kv
    by_cases h : k0 = k
    · subst h
      simp [dictSet, List.lookup]
    · rw [dictSet, if_neg h]
      simp only [List.lookup, beq_false_of_ne (fun he => h he.symm)]
      exact ih

theorem lookup_dictSet_ne (kvs : List (String × Json)) (k k1 : String)
    (v : Json) (h : k1 ≠ k) :
    List.lookup k (dictSet kvs k1 v) = List.lookup k kvs := by
  induction kvs with
  | nil =>
    simp [dictSet, List.lookup, beq_false_of_ne (fun he => h he.symm)]
  | cons kv rest ih =>
    obtain ⟨k0, v0⟩ := kv
    by_cases h0 : k0 = k1
    · subst h0
      rw [dictSet, if_pos rfl]
      simp only [List.lookup, beq_false_of_ne (fun he => h he.symm)]
    · rw [dictSet, if_neg h0]
      simp only [List.lookup]
      cases hbk : (k == k0)
      · simp only []
        exact ih
      · rfl

theorem lookup_append_single_ne (kvs : List (String × Json)) (k k1 : String)
    (v : Json) (h : k1 ≠ k) :
    List.lookup k (kvs ++ [(k1, v)]) = List.lookup k kvs := by
  induction kvs with
  | nil =>
    simp [List.lookup, beq_false_of_ne (fun he => h he.symm)]
  | cons kv rest ih =>
    obtain ⟨k0, v0⟩ := kv
    simp only [List.cons_append, List.lookup]
    cases hbk : (k == k0)
    · simp only []
      exact ih
    · rfl

theorem lookup_dictSetD_ne (kvs : List (String × Json)) (k k1 : String)
    (v : Json) (h : k1 ≠ k) :
    List.lookup k (dictSetD kvs k1 v) = List.lookup k kvs := by
  unfold dictSetD
  by_cases hs : (List.lookup k1 kvs).isSome = true
  · rw [if_pos hs]
  · rw [if_neg hs]
    exact lookup_append_single_ne kvs k k1 v h

theorem countP_none_add_length_filterMap {α β : Type}
    (f : α → Option β) (l : List α) :
    l.countP (fun e => (f e).isNone) + (l.filterMap f).length = l.length := by
  induction l with
  | nil => rfl
  | cons a as ih =>
    rw [List.countP_cons, List.filterMap_cons, List.length_cons]
    cases hfa : f a with
    | none =>
      simp [hfa]
      omega
    | some b =>
      simp [hfa]
      omega

theorem normItemOf_lookup (item : Json) (it : List (String × Json))
    (h : normItemOf item = some it) :
    ∃ n : Int, List.lookup "index" it = some (Json.num n) := by
  cases item with
  | obj kvs =>
    simp only [normItemOf] at h
    rcases hi : pyInt ((List.lookup "index" kvs).getD (Json.num 0)) with
      _ | idx
    · rw [hi] at h; simp at h
    · rw [hi] at h
      simp only [Option.some.injEq] at h
      subst h
      refine ⟨idx, ?_⟩
      rw [lookup_dictSetD_ne _ _ _ _ (by decide),
        lookup_dictSetD_ne _ _ _ _ (by decide),
        lookup_dictSetD_ne _ _ _ _ (by decide),
        lookup_dictSetD_ne _ _ _ _ (by decide),
        lookup_dictSetD_ne _ _ _ _ (by decide),
        lookup_dictSetD_ne _ _ _ _ (by decide),
        lookup_dictSet_ne _ _ _ _ (by decide),
        lookup_dictSet_self]
  | null => simp [normItemOf] at h
  | bool b => simp [normItemOf] at h
  | num n => simp [normItemOf] at h
  | str s => simp [normItemOf] at h
  | arr elems => simp [normItemOf] at h

theorem normalize_lookup_index (loads : String → Option Json) (raw : Json)
    (it : List (String × Json)) (h : _normalize_item loads raw = some it) :
    ∃ n : Int, List.lookup "index" it = some (Json.num n) := by
  cases raw with
  | str s =>
    simp only [_normalize_item] at h
    rcases hl : loads s with _ | j
    · rw [hl] at h; simp at h
    · rw [hl] at h
      simp only [Option.some_bind] at h
      exact normItemOf_lookup j it h
  | null =>
    simp only [_normalize_item] at h
    exact normItemOf_lookup _ it h
  | bool b =>
    simp only [_normalize_item] at h
    exact normItemOf_lookup _ it h
  | num n =>
    simp only [_normalize_item] at h
    exact normItemOf_lookup _ it h
  | arr elems =>
    simp only [_normalize_item] at h
    exact normItemOf_lookup _ it h
  | obj kvs =>
    simp only [_normalize_item] at h
    exact normItemOf_lookup _ it h

/-- Counterexample to C9 as stated: two well-formed records carrying the
same index are both retained by the load, so the loaded catalog does not
give every retained card a unique index. -/
theorem load_duplicate_index_retained :
    ((load_tarot_cards (fun _ => none)
        (Json.arr [Json.obj [("index", Json.num 1)],
          Json.obj [("index", Json.num 1)]])).1.map sortKey = [1, 1])
    ∧ ¬ (((load_tarot_cards (fun _ => none)
        (Json.arr [Json.obj [("index", Json.num 1)],
          Json.obj [("index", Json.num 1)]])).1.map sortKey).Nodup) := by
  exact ⟨rfl, by decide⟩

/-- C9 amended: after the load the catalog is sorted ascending by index,
the dropped count plus the retained count equals the input count (each
malformed record is dropped non-fatally and counted for the warning), every
retained record carries an integer index entry, and retained indices are
unique whenever the normalized input records carry unique indices (the load
itself does not enforce uniqueness). -/
theorem load_sorted_dropped_counted (loads : String → Option Json)
    (els : List Json) :
    (load_tarot_cards loads (Json.arr els)).1.Pairwise
        (fun a b => sortKey a ≤ sortKey b)
    ∧ (load_tarot_cards loads (Json.arr els)).2
        + (load_tarot_cards loads (Json.arr els)).1.length = els.length
    ∧ (((els.filterMap (_normalize_item loads)).map sortKey).Nodup →
        ((load_tarot_cards loads (Json.arr els)).1.map sortKey).Nodup)
    ∧ (∀ it ∈ (load_tarot_cards loads (Json.arr els)).1,
        ∃ n : Int, List.lookup "index" it = some (Json.num n)) := by
  have hres : (load_tarot_cards loads (Json.arr els)).1
      = List.insertionSort (fun a b => sortKey a ≤ sortKey b)
          (els.filterMap (_normalize_item loads)) := rfl
  have hcnt : (load_tarot_cards loads (Json.arr els)).2
      = els.countP (fun e => (_normalize_item loads e).isNone) := rfl
  have hperm := List.perm_insertionSort (fun a b => sortKey a ≤ sortKey b)
    (els.filterMap (_normalize_item loads))
  refine ⟨?_, ?_, ?_, ?_⟩
  · rw [hres]
    haveI : IsTotal (List (String × Json)) (fun a b => sortKey a ≤ sortKey b) :=
      ⟨fun a b => le_total _ _⟩
    haveI : IsTrans (List (String × Json)) (fun a b => sortKey a ≤ sortKey b) :=
      ⟨fun a b c hab hbc => le_trans hab hbc⟩
    exact List.sorted_insertionSort _ _
  · rw [hres, hcnt, hperm.length_eq]
    exact countP_none_add_length_filterMap _ _
  · intro hnd
    rw [hres]
    exact ((hperm.map sortKey).nodup_iff).mpr hnd
  · intro it hit
    rw [hres] at hit
    obtain ⟨raw, hraw, hn⟩ := List.mem_filterMap.mp (hperm.mem_iff.mp hit)
    exact normalize_lookup_index loads raw it hn

/-- Witness for C9 (amended) on a three-element input with one malformed
record and unique indices. -/
theorem load_sorted_dropped_counted_witness :
    (load_tarot_cards (fun _ => none)
        (Json.arr [Json.obj [("index", Json.num 2)], Json.str "bad",
          Json.obj [("index", Json.num 1)]])).1.Pairwise
      (fun a b => sortKey a ≤ sortKey b)
    ∧ ((load_tarot_cards (fun _ => none)
        (Json.arr [Json.obj [("index", Json.num 2)], Json.str "bad",
          Json.obj [("index", Json.num 1)]])).1.map sortKey).Nodup := by
  have h := load_sorted_dropped_counted (fun _ => none)
    [Json.obj [("index", Json.num 2)], Json.str "bad",
      Json.obj [("index", Json.num 1)]]
  exact ⟨h.1, h.2.2.1 (by decide)⟩

end PktGai
